import Mathlib

/-!
Verification of the remote-memory-read engine in
`src/target/linux/readmem.rs` (headcrab).

The Rust code is shallowly embedded: addresses, lengths and raw pointers
become `Nat`, machine words read by `ptrace::read` become `Nat` values
whose little-endian bytes are extracted with `wordByte`, local memory
becomes an explicit map `Nat → Nat`, and the results of the external
system calls (`process_vm_readv`, `memory_maps`, `ptrace::read`) are
supplied by an explicit environment `ApplyEnv`.  Loops are embedded as
fuel-indexed structural recursions; the fuel chosen at each call site is
provably sufficient whenever the page size is positive (for the splitter)
or unconditionally (for the ptrace loop).
-/

namespace Headcrab

/-- The value of `size_of::<c_long>()` on 64-bit Linux. -/
def long_size : Nat := 8

/-- The value of `isize::MAX as usize` on a 64-bit platform. -/
def isizeMax : Nat := 2 ^ 63 - 1

/-- A single memory read operation (struct `ReadOp`). -/
structure ReadOp where
  remote_base : Nat
  len : Nat
  local_ptr : Nat
deriving DecidableEq

/-- Total requested length of a list of ops. -/
def sumLens (ops : List ReadOp) : Nat := (ops.map ReadOp.len).sum

/-- The `while left > 0` loop of `ReadOp::split_on_page_boundary`,
with an explicit fuel bounding the number of iterations.  Each
iteration either emits the final sub-page op and stops, or emits a
whole-page op and continues with `left - pageSize`. -/
def splitLoop (pageSize base len lptr : Nat) : Nat → Nat → List ReadOp
  | left, fuel + 1 =>
    if 0 < left then
      if left < pageSize then
        [{ remote_base := base + (len - left), len := left,
           local_ptr := lptr + (len - left) }]
      else
        { remote_base := base + (len - left), len := pageSize,
          local_ptr := lptr + (len - left) } ::
          splitLoop pageSize base len lptr (left - pageSize) fuel
    else []
  | _, 0 => []

/-- Embedding of `ReadOp::split_on_page_boundary`: splits an op so that each resulting
op resides in only one memory page.  The Rust function pushes into an
`out` vector; here the pushed ops are returned as a list.  The fuel
`left - to_next_read_op` is sufficient for any positive page size. -/
def split_on_page_boundary (pageSize : Nat) (op : ReadOp) : List ReadOp :=
  let left := op.len
  let next_page_distance := pageSize - ((pageSize - 1) &&& op.remote_base)
  let to_next_read_op := min left next_page_distance
  { remote_base := op.remote_base, len := to_next_read_op,
    local_ptr := op.local_ptr } ::
    splitLoop pageSize op.remote_base op.len op.local_ptr
      (left - to_next_read_op) (left - to_next_read_op)

/-- Embedding of `ReadMemory::read_byte_slice`: accumulates the split of one request
(`val.len()` bytes at `remote_base` into the buffer at `val_ptr`) onto
the batch's op list. -/
def read_byte_slice (pageSize : Nat) (read_ops : List ReadOp)
    (val_len val_ptr remote_base : Nat) : List ReadOp :=
  read_ops ++ split_on_page_boundary pageSize
    { remote_base := remote_base, len := val_len, local_ptr := val_ptr }

/-! ### Lemmas about the page splitter -/

theorem sumLens_nil : sumLens [] = 0 := rfl

theorem sumLens_cons (o : ReadOp) (t : List ReadOp) :
    sumLens (o :: t) = o.len + sumLens t := by
  simp [sumLens]

theorem foldl_add_len (ops : List ReadOp) (n : Nat) :
    ops.foldl (fun sum read_op => sum + read_op.len) n = n + sumLens ops := by
  induction ops generalizing n with
  | nil => simp [sumLens]
  | cons o t ih =>
    rw [List.foldl_cons, ih, sumLens_cons]
    omega

theorem splitLoop_sum (pageSize base len lptr : Nat) (hP : 0 < pageSize) :
    ∀ fuel left, left ≤ fuel →
      sumLens (splitLoop pageSize base len lptr left fuel) = left := by
  intro fuel
  induction fuel with
  | zero =>
    intro left h
    have : left = 0 := Nat.le_zero.mp h
    subst this
    rfl
  | succ n ih =>
    intro left h
    rw [splitLoop]
    by_cases h0 : 0 < left
    · rw [if_pos h0]
      by_cases hlt : left < pageSize
      · rw [if_pos hlt, sumLens_cons, sumLens_nil]
        show left + 0 = left
        omega
      · rw [if_neg hlt, sumLens_cons, ih (left - pageSize) (by omega)]
        show pageSize + (left - pageSize) = left
        omega
    · rw [if_neg h0, sumLens_nil]
      omega

theorem splitLoop_page (pageSize base len lptr : Nat) (hP : 0 < pageSize) :
    ∀ fuel left, left ≤ fuel → left ≤ len → pageSize ∣ (base + (len - left)) →
      ∀ o ∈ splitLoop pageSize base len lptr left fuel,
        o.len ≤ pageSize ∧ o.remote_base % pageSize = 0 := by
  intro fuel
  induction fuel with
  | zero =>
    intro left h _ _ o ho
    have : left = 0 := Nat.le_zero.mp h
    subst this
    simp [splitLoop] at ho
  | succ n ih =>
    intro left h hlen hdvd o ho
    rw [splitLoop] at ho
    by_cases h0 : 0 < left
    · rw [if_pos h0] at ho
      by_cases hlt : left < pageSize
      · rw [if_pos hlt] at ho
        rw [List.mem_singleton] at ho
        subst ho
        exact ⟨Nat.le_of_lt hlt, Nat.mod_eq_zero_of_dvd hdvd⟩
      · rw [if_neg hlt] at ho
        rcases List.mem_cons.mp ho with ho | ho
        · subst ho
          exact ⟨Nat.le_refl _, Nat.mod_eq_zero_of_dvd hdvd⟩
        · have heq : len - (left - pageSize) = (len - left) + pageSize := by omega
          refine ih (left - pageSize) (by omega) (by omega) ?_ o ho
          rw [heq, ← Nat.add_assoc]
          exact Dvd.dvd.add hdvd (dvd_refl pageSize)
    · rw [if_neg h0] at ho
      simp at ho

/-- The ops of a list are contiguous, starting at remote address `rb`
and local address `lp`: each op begins exactly where the previous one
ended, on both the remote and the local side. -/
def chained (rb lp : Nat) : List ReadOp → Prop
  | [] => True
  | o :: t => o.remote_base = rb ∧ o.local_ptr = lp ∧ chained (rb + o.len) (lp + o.len) t

theorem chained_get (l : List ReadOp) :
    ∀ rb lp, chained rb lp l → ∀ i o, l.get? i = some o →
      o.remote_base = rb + sumLens (l.take i)
        ∧ o.local_ptr = lp + sumLens (l.take i) := by
  induction l with
  | nil =>
    intro rb lp _ i o h
    simp [List.get?] at h
  | cons a t ih =>
    intro rb lp hc i o h
    cases i with
    | zero =>
      simp [List.get?] at h
      subst h
      simp [sumLens_nil, hc.1, hc.2.1]
    | succ j =>
      simp only [List.get?] at h
      have := ih (rb + a.len) (lp + a.len) hc.2.2 j o h
      simp only [List.take_succ_cons, sumLens_cons]
      omega

theorem splitLoop_chained (pageSize base len lptr : Nat) (hP : 0 < pageSize) :
    ∀ fuel left, left ≤ fuel → left ≤ len →
      chained (base + (len - left)) (lptr + (len - left))
        (splitLoop pageSize base len lptr left fuel) := by
  intro fuel
  induction fuel with
  | zero =>
    intro left h _
    have : left = 0 := Nat.le_zero.mp h
    subst this
    exact trivial
  | succ n ih =>
    intro left h1 h2
    rw [splitLoop]
    by_cases h0 : 0 < left
    · rw [if_pos h0]
      by_cases hlt : left < pageSize
      · rw [if_pos hlt]
        exact ⟨rfl, rfl, trivial⟩
      · rw [if_neg hlt]
        refine ⟨rfl, rfl, ?_⟩
        have heq : (len - left) + pageSize = len - (left - pageSize) := by omega
        show chained (base + (len - left) + pageSize)
          (lptr + (len - left) + pageSize) _
        rw [Nat.add_assoc, Nat.add_assoc, heq]
        exact ih (left - pageSize) (by omega) (by omega)
    · rw [if_neg h0]
      exact trivial

theorem next_page_distance_eq (k base : Nat) :
    2 ^ k - ((2 ^ k - 1) &&& base) = 2 ^ k - base % 2 ^ k := by
  rw [Nat.and_comm, Nat.and_pow_two_sub_one_eq_mod]

theorem page_dvd_base_add_npd (k base : Nat) :
    2 ^ k ∣ (base + (2 ^ k - base % 2 ^ k)) := by
  have hP : 0 < 2 ^ k := Nat.pos_pow_of_pos k (by omega)
  have hdm := Nat.div_add_mod base (2 ^ k)
  have hlt : base % 2 ^ k < 2 ^ k := Nat.mod_lt _ hP
  refine ⟨base / 2 ^ k + 1, ?_⟩
  rw [Nat.mul_add, Nat.mul_one]
  omega

/-! ### Claims about the page splitter -/

/-- Claim C3: for every `ReadOp` with `len > 0`, the page splitter's output
is a sequence of ops whose lengths sum exactly to the input op's `len`, and
every output op's remote range `[remote_base, remote_base + len)` lies
entirely within a single OS page (page size `2 ^ k`). -/
theorem split_sum_and_single_page (k : Nat) (pageSize : Nat) (hP : pageSize = 2 ^ k)
    (op : ReadOp) (hlen : 0 < op.len) :
    sumLens (split_on_page_boundary pageSize op) = op.len ∧
    ∀ o ∈ split_on_page_boundary pageSize op,
      o.remote_base % pageSize + o.len ≤ pageSize := by
  subst hP
  have hpos : 0 < 2 ^ k := Nat.pos_pow_of_pos k (by omega)
  have hmod : op.remote_base % 2 ^ k < 2 ^ k := Nat.mod_lt _ hpos
  have hnpd : 2 ^ k - ((2 ^ k - 1) &&& op.remote_base)
      = 2 ^ k - op.remote_base % 2 ^ k := next_page_distance_eq k op.remote_base
  have hsplit : split_on_page_boundary (2 ^ k) op =
      { remote_base := op.remote_base,
        len := min op.len (2 ^ k - ((2 ^ k - 1) &&& op.remote_base)),
        local_ptr := op.local_ptr } ::
        splitLoop (2 ^ k) op.remote_base op.len op.local_ptr
          (op.len - min op.len (2 ^ k - ((2 ^ k - 1) &&& op.remote_base)))
          (op.len - min op.len (2 ^ k - ((2 ^ k - 1) &&& op.remote_base))) := rfl
  have hminle : min op.len (2 ^ k - ((2 ^ k - 1) &&& op.remote_base)) ≤ op.len :=
    Nat.min_le_left _ _
  have hminr : min op.len (2 ^ k - ((2 ^ k - 1) &&& op.remote_base))
      ≤ 2 ^ k - ((2 ^ k - 1) &&& op.remote_base) := Nat.min_le_right _ _
  constructor
  · rw [hsplit, sumLens_cons,
      splitLoop_sum (2 ^ k) op.remote_base op.len op.local_ptr hpos _ _ (Nat.le_refl _)]
    show min op.len (2 ^ k - ((2 ^ k - 1) &&& op.remote_base))
      + (op.len - min op.len (2 ^ k - ((2 ^ k - 1) &&& op.remote_base))) = op.len
    omega
  · intro o ho
    rw [hsplit] at ho
    rcases List.mem_cons.mp ho with ho | ho
    · subst ho
      show op.remote_base % 2 ^ k
        + min op.len (2 ^ k - ((2 ^ k - 1) &&& op.remote_base)) ≤ 2 ^ k
      omega
    · by_cases hz : op.len - min op.len (2 ^ k - ((2 ^ k - 1) &&& op.remote_base)) = 0
      · rw [hz] at ho
        simp [splitLoop] at ho
      · have hmin : min op.len (2 ^ k - ((2 ^ k - 1) &&& op.remote_base))
            = 2 ^ k - ((2 ^ k - 1) &&& op.remote_base) := by
          rcases min_choice op.len (2 ^ k - ((2 ^ k - 1) &&& op.remote_base)) with h | h
          · omega
          · exact h
        have hdvd : 2 ^ k ∣ (op.remote_base + (op.len
            - (op.len - min op.len (2 ^ k - ((2 ^ k - 1) &&& op.remote_base))))) := by
          have h2 : op.len - (op.len
              - min op.len (2 ^ k - ((2 ^ k - 1) &&& op.remote_base)))
              = min op.len (2 ^ k - ((2 ^ k - 1) &&& op.remote_base)) := by omega
          rw [h2, hmin, hnpd]
          exact page_dvd_base_add_npd k op.remote_base
        have := splitLoop_page (2 ^ k) op.remote_base op.len op.local_ptr hpos
          _ _ (Nat.le_refl _) (Nat.sub_le _ _) hdvd o ho
        omega

/-- Claim C3 witness: instantiation at page size `4096 = 2 ^ 12` and the op
`(0x1ffc, 12)`. -/
theorem split_sum_and_single_page_witness :
    0 < (12 : Nat) ∧
    (sumLens (split_on_page_boundary 4096
        { remote_base := 0x1ffc, len := 12, local_ptr := 0 }) = 12 ∧
      ∀ o ∈ split_on_page_boundary 4096
          { remote_base := 0x1ffc, len := 12, local_ptr := 0 },
        o.remote_base % 4096 + o.len ≤ 4096) :=
  ⟨by decide,
    split_sum_and_single_page 12 4096 (by norm_num)
      { remote_base := 0x1ffc, len := 12, local_ptr := 0 } (by decide)⟩

/-- Claim C4: for every `ReadOp` with `len > 0`, each output op of the page
splitter has `remote_base` and `local_ptr` offset from the original op's
`remote_base` and `local_ptr` by exactly the sum of the lengths of all
earlier output ops, so the ordered concatenation of the output destination
ranges reconstructs exactly the original destination range. -/
theorem split_offsets (pageSize : Nat) (hP : 0 < pageSize) (op : ReadOp)
    (hlen : 0 < op.len) (i : Nat) (o : ReadOp)
    (h : (split_on_page_boundary pageSize op).get? i = some o) :
    o.remote_base
      = op.remote_base + sumLens ((split_on_page_boundary pageSize op).take i)
    ∧ o.local_ptr
      = op.local_ptr + sumLens ((split_on_page_boundary pageSize op).take i) := by
  refine chained_get _ op.remote_base op.local_ptr ?_ i o h
  show chained op.remote_base op.local_ptr
    ({ remote_base := op.remote_base,
       len := min op.len (pageSize - ((pageSize - 1) &&& op.remote_base)),
       local_ptr := op.local_ptr } ::
      splitLoop pageSize op.remote_base op.len op.local_ptr
        (op.len - min op.len (pageSize - ((pageSize - 1) &&& op.remote_base)))
        (op.len - min op.len (pageSize - ((pageSize - 1) &&& op.remote_base))))
  refine ⟨rfl, rfl, ?_⟩
  have hminle : min op.len (pageSize - ((pageSize - 1) &&& op.remote_base)) ≤ op.len :=
    Nat.min_le_left _ _
  have h2 : op.len
      - (op.len - min op.len (pageSize - ((pageSize - 1) &&& op.remote_base)))
      = min op.len (pageSize - ((pageSize - 1) &&& op.remote_base)) := by omega
  have hc := splitLoop_chained pageSize op.remote_base op.len op.local_ptr hP
    (op.len - min op.len (pageSize - ((pageSize - 1) &&& op.remote_base)))
    (op.len - min op.len (pageSize - ((pageSize - 1) &&& op.remote_base)))
    (Nat.le_refl _) (Nat.sub_le _ _)
  rw [h2] at hc
  exact hc

/-- Claim C4 witness: for the op `(0x1ffc, 12)` at page size 4096, the
second output op `(0x2000, 8, 4)` is offset from the original by the length
(4) of the first output op. -/
theorem split_offsets_witness :
    0 < (12 : Nat) ∧
    ({ remote_base := 0x2000, len := 8, local_ptr := 4 } : ReadOp).remote_base
        = 0x1ffc + sumLens ((split_on_page_boundary 4096
            { remote_base := 0x1ffc, len := 12, local_ptr := 0 }).take 1)
      ∧ ({ remote_base := 0x2000, len := 8, local_ptr := 4 } : ReadOp).local_ptr
        = 0 + sumLens ((split_on_page_boundary 4096
            { remote_base := 0x1ffc, len := 12, local_ptr := 0 }).take 1) :=
  ⟨by decide,
    split_offsets 4096 (by decide)
      { remote_base := 0x1ffc, len := 12, local_ptr := 0 } (by decide) 1
      { remote_base := 0x2000, len := 8, local_ptr := 4 } (by decide)⟩

/-- Claim C5: with page size `0x1000`, splitting a `ReadOp` with
`remote_base = 0x1ffc` and `len = 12` emits exactly two ops: `(0x1ffc, 4)`
and `(0x2000, 8)` (local destinations at offsets 0 and 4). -/
theorem split_concrete_crossing :
    split_on_page_boundary 0x1000
        { remote_base := 0x1ffc, len := 12, local_ptr := 0 }
      = [{ remote_base := 0x1ffc, len := 4, local_ptr := 0 },
         { remote_base := 0x2000, len := 8, local_ptr := 4 }] := by decide

/-- Claim C10: a zero-length request still produces an op: accumulating an
empty byte slice pushes exactly one `ReadOp` with `len = 0` onto the batch,
so the batch grows by one entry. -/
theorem read_byte_slice_empty_slice (pageSize : Nat) (batch : List ReadOp)
    (val_ptr remote_base : Nat) :
    read_byte_slice pageSize batch 0 val_ptr remote_base
      = batch ++ [{ remote_base := remote_base, len := 0, local_ptr := val_ptr }] := by
  simp [read_byte_slice, split_on_page_boundary, Nat.zero_min, splitLoop]

/-! ### The protected-page fallback reader (`ReadMemory::read_ptrace`) -/

/-- Local (debugger-side) memory: a byte value for every address. -/
abbrev LocalMem := Nat → Nat

/-- Byte `i` (little-endian) of the machine word `w`, as produced by
`c_long::to_ne_bytes()` on x86-64 Linux. -/
def wordByte (w i : Nat) : Nat := w / 256 ^ i % 256

/-- Writing the first `count` little-endian bytes of the word `w` at
address `addr`: this models both the full-word store
`*(local_ptr + offset as *mut i64) = data` (`count = long_size`) and the
partial copy `previous_bytes[0..rem].clone_from_slice(&data.to_ne_bytes()[0..rem])`
(`count = rem`). -/
def writeBytes (mem : LocalMem) (addr w count : Nat) : LocalMem :=
  fun a => if addr ≤ a ∧ a < addr + count then wordByte w (a - addr) else mem a

/-- The `while offset < read_op.len` loop of `ReadMemory::read_ptrace`,
with an explicit fuel bounding the number of iterations (fuel `len`
always suffices since the offset advances by `long_size = 8` each
iteration).  `peek` models `ptrace::read`; `none` is a ptrace error,
which the Rust code propagates with `?` (the `false` flag). -/
def readPtraceLoop (peek : Nat → Option Nat) (remote_base lptr len : Nat) :
    Nat → Nat → LocalMem → Bool × LocalMem
  | offset, fuel + 1, mem =>
    if offset < len then
      match peek (remote_base + offset) with
      | none => (false, mem)
      | some data =>
        let mem2 :=
          if long_size ≤ len - offset then
            writeBytes mem (lptr + offset) data long_size
          else
            writeBytes mem (lptr + offset) data (len - offset)
        readPtraceLoop peek remote_base lptr len (offset + long_size) fuel mem2
    else (true, mem)
  | offset, 0, mem => (decide (len ≤ offset), mem)

/-- Processing of one op by `ReadMemory::read_ptrace`. -/
def read_ptrace_op (peek : Nat → Option Nat) (op : ReadOp) (mem : LocalMem) :
    Bool × LocalMem :=
  readPtraceLoop peek op.remote_base op.local_ptr op.len 0 op.len mem

/-- Embedding of `ReadMemory::read_ptrace`: processes each op in turn; a ptrace error
aborts the remaining ops (`?`), keeping the bytes already written. -/
def read_ptrace (peek : Nat → Option Nat) : List ReadOp → LocalMem → Bool × LocalMem
  | [], mem => (true, mem)
  | op :: rest, mem =>
    let r := read_ptrace_op peek op mem
    if r.1 then read_ptrace peek rest r.2 else (false, r.2)

/-- Remote (debuggee-side) memory assembled into the machine word that
`ptrace::read` returns for address `a`: `k` little-endian bytes. -/
def assembleWord (m : Nat → Nat) : Nat → Nat → Nat
  | _, 0 => 0
  | a, k + 1 => m a + 256 * assembleWord m (a + 1) k

/-- A `ptrace::read` peek primitive over remote memory `m`: succeeds on
addresses where `peekOk` holds and returns the word of `long_size`
little-endian bytes of `m` starting there. -/
def peekFrom (peekOk : Nat → Bool) (m : Nat → Nat) : Nat → Option Nat :=
  fun a => if peekOk a then some (assembleWord m a long_size) else none

theorem wordByte_assembleWord (m : Nat → Nat) (hm : ∀ x, m x < 256) :
    ∀ k a i, i < k → wordByte (assembleWord m a k) i = m (a + i) := by
  intro k
  induction k with
  | zero =>
    intro a i h
    exact absurd h (Nat.not_lt_zero i)
  | succ n ih =>
    intro a i h
    cases i with
    | zero =>
      show assembleWord m a (n + 1) / 256 ^ 0 % 256 = m (a + 0)
      rw [pow_zero, Nat.div_one, Nat.add_zero]
      show (m a + 256 * assembleWord m (a + 1) n) % 256 = m a
      rw [Nat.add_mul_mod_self_left]
      exact Nat.mod_eq_of_lt (hm a)
    | succ j =>
      have hdiv : assembleWord m a (n + 1) / 256 = assembleWord m (a + 1) n := by
        show (m a + 256 * assembleWord m (a + 1) n) / 256 = assembleWord m (a + 1) n
        rw [Nat.add_mul_div_left _ _ (by norm_num : (0 : Nat) < 256)]
        rw [Nat.div_eq_of_lt (hm a)]
        omega
      show assembleWord m a (n + 1) / 256 ^ (j + 1) % 256 = m (a + (j + 1))
      rw [pow_succ', ← Nat.div_div_eq_div_mul, hdiv]
      have := ih (a + 1) j (by omega)
      show wordByte (assembleWord m (a + 1) n) j = m (a + (j + 1))
      rw [this]
      congr 1
      omega

/-- Frame property of the inner ptrace loop: no address below
`lptr + offset` and no address at or past `lptr + len` is ever written,
whether the loop succeeds or aborts on a peek error. -/
theorem readPtraceLoop_frame (peek : Nat → Option Nat) (remote_base lptr len : Nat) :
    ∀ fuel offset mem a, (a < lptr + offset ∨ lptr + len ≤ a) →
      (readPtraceLoop peek remote_base lptr len offset fuel mem).2 a = mem a := by
  intro fuel
  induction fuel with
  | zero =>
    intro offset mem a _
    rfl
  | succ n ih =>
    intro offset mem a ha
    rw [readPtraceLoop]
    by_cases hofs : offset < len
    · rw [if_pos hofs]
      cases hpeek : peek (remote_base + offset) with
      | none => rfl
      | some data =>
        have hrec : ∀ mem2 : LocalMem, mem2 a = mem a →
            (readPtraceLoop peek remote_base lptr len (offset + long_size) n mem2).2 a
              = mem a := by
          intro mem2 hmem2
          rw [ih (offset + long_size) mem2 a (by unfold long_size; omega), hmem2]
        by_cases hfull : long_size ≤ len - offset
        · show (readPtraceLoop peek remote_base lptr len (offset + long_size) n
            (if long_size ≤ len - offset then
              writeBytes mem (lptr + offset) data long_size
            else writeBytes mem (lptr + offset) data (len - offset))).2 a = mem a
          rw [if_pos hfull]
          refine hrec _ ?_
          unfold writeBytes
          rw [if_neg]
          unfold long_size at hfull ⊢
          omega
        · show (readPtraceLoop peek remote_base lptr len (offset + long_size) n
            (if long_size ≤ len - offset then
              writeBytes mem (lptr + offset) data long_size
            else writeBytes mem (lptr + offset) data (len - offset))).2 a = mem a
          rw [if_neg hfull]
          refine hrec _ ?_
          unfold writeBytes
          rw [if_neg]
          omega
    · rw [if_neg hofs]

/-- Correctness of the inner ptrace loop: on success, every destination
byte from the current offset up to `len` holds the corresponding remote
byte. -/
theorem readPtraceLoop_correct (peekOk : Nat → Bool) (m : Nat → Nat)
    (hm : ∀ x, m x < 256) (remote_base lptr len : Nat) :
    ∀ fuel offset mem,
      (readPtraceLoop (peekFrom peekOk m) remote_base lptr len offset fuel mem).1 = true →
      ∀ i, offset ≤ i → i < len →
        (readPtraceLoop (peekFrom peekOk m) remote_base lptr len offset fuel mem).2
            (lptr + i)
          = m (remote_base + i) := by
  intro fuel
  induction fuel with
  | zero =>
    intro offset mem h i hoi hil
    have : len ≤ offset := of_decide_eq_true h
    omega
  | succ n ih =>
    intro offset mem h i hoi hil
    rw [readPtraceLoop] at h ⊢
    by_cases hofs : offset < len
    · rw [if_pos hofs] at h ⊢
      cases hpeek : peekFrom peekOk m (remote_base + offset) with
      | none =>
        simp [hpeek] at h
      | some data =>
        have hdata : data = assembleWord m (remote_base + offset) long_size := by
          unfold peekFrom at hpeek
          by_cases hok2 : peekOk (remote_base + offset)
          · rw [if_pos hok2] at hpeek
            exact (Option.some.injEq _ _ ▸ hpeek).symm
          · rw [if_neg hok2] at hpeek
            exact absurd hpeek (by simp)
        simp only [hpeek] at h ⊢
        by_cases hnext : offset + long_size ≤ i
        · exact ih (offset + long_size) _ h i hnext hil
        · have hfr := readPtraceLoop_frame (peekFrom peekOk m) remote_base lptr len n
            (offset + long_size)
            (if long_size ≤ len - offset then
              writeBytes mem (lptr + offset) data long_size
            else writeBytes mem (lptr + offset) data (len - offset))
            (lptr + i) (Or.inl (by omega))
          rw [hfr]
          have hbyte : ∀ count : Nat, offset + count ≤ len → i < offset + count →
              writeBytes mem (lptr + offset) data count (lptr + i)
                = m (remote_base + i) := by
            intro count h1 h2
            unfold writeBytes
            rw [if_pos (by omega)]
            have hsub : lptr + i - (lptr + offset) = i - offset := by omega
            rw [hsub, hdata,
              wordByte_assembleWord m hm long_size (remote_base + offset) (i - offset)
                (by unfold long_size at hnext ⊢; omega)]
            congr 1
            omega
          by_cases hfull : long_size ≤ len - offset
          · rw [if_pos hfull]
            exact hbyte long_size (by omega) (by omega)
          · rw [if_neg hfull]
            exact hbyte (len - offset) (by omega) (by omega)
    · exact absurd (show offset < len by omega) hofs

/-- Claim C7: for every op it processes, the fallback reader writes only
into the destination bytes at offsets `[0, len)`: every destination byte
below `local_ptr` or at offset `≥ len` is left unchanged, even when `len`
is not a multiple of the machine word size and regardless of whether the
loop succeeds or aborts. -/
theorem read_ptrace_op_frame (peek : Nat → Option Nat) (op : ReadOp)
    (mem : LocalMem) (a : Nat)
    (h : a < op.local_ptr ∨ op.local_ptr + op.len ≤ a) :
    (read_ptrace_op peek op mem).2 a = mem a :=
  readPtraceLoop_frame peek op.remote_base op.local_ptr op.len op.len 0 mem a
    (by omega)

/-- Claim C7 witness: reading 3 bytes into a buffer at address 10 leaves
the sentinel byte at address 13 (offset 3 = `len`) unchanged. -/
theorem read_ptrace_op_frame_witness :
    (10 + 3 ≤ 13) ∧
    (read_ptrace_op (fun _ => some 0)
        { remote_base := 100, len := 3, local_ptr := 10 } (fun a => a)).2 13 = 13 :=
  ⟨by decide,
    read_ptrace_op_frame (fun _ => some 0)
      { remote_base := 100, len := 3, local_ptr := 10 } (fun a => a) 13
      (Or.inr (by decide))⟩

/-- Claim C8: the fallback reader proceeds word-by-word from offset 0,
advancing one machine word per iteration; on success the destination bytes
`[0, len)` equal the remote bytes at `[remote_base, remote_base + len)`
(the peek primitive returning, where it succeeds, the machine word
assembled from remote memory `m`). -/
theorem read_ptrace_op_correct (peekOk : Nat → Bool) (m : Nat → Nat)
    (hm : ∀ x, m x < 256) (op : ReadOp) (mem : LocalMem)
    (hok : (read_ptrace_op (peekFrom peekOk m) op mem).1 = true)
    (i : Nat) (hi : i < op.len) :
    (read_ptrace_op (peekFrom peekOk m) op mem).2 (op.local_ptr + i)
      = m (op.remote_base + i) :=
  readPtraceLoop_correct peekOk m hm op.remote_base op.local_ptr op.len op.len 0 mem
    hok i (Nat.zero_le i) hi

/-- Claim C8 witness: a 3-byte read (partial word) at remote base 100
succeeds and its last destination byte equals the remote byte at 102. -/
theorem read_ptrace_op_correct_witness :
    (read_ptrace_op (peekFrom (fun _ => true) (fun a => a % 256))
        { remote_base := 100, len := 3, local_ptr := 7 } (fun _ => 0)).1 = true ∧
    (read_ptrace_op (peekFrom (fun _ => true) (fun a => a % 256))
        { remote_base := 100, len := 3, local_ptr := 7 } (fun _ => 0)).2 (7 + 2)
      = (100 + 2) % 256 :=
  ⟨by decide,
    read_ptrace_op_correct (fun _ => true) (fun a => a % 256)
      (fun x => Nat.mod_lt x (by decide))
      { remote_base := 100, len := 3, local_ptr := 7 } (fun _ => 0)
      (by decide) 2 (by decide)⟩

/-! ### The batched reader and the orchestrator (`ReadMemory::apply`) -/

/-- The `libc::iovec` descriptor. -/
structure IoVec where
  iov_base : Nat
  iov_len : Nat
deriving DecidableEq

/-- Embedding of `ReadOp::as_remote_iovec`. -/
def ReadOp.as_remote_iovec (op : ReadOp) : IoVec :=
  { iov_base := op.remote_base, iov_len := op.len }

/-- Embedding of `ReadOp::as_local_iovec`. -/
def ReadOp.as_local_iovec (op : ReadOp) : IoVec :=
  { iov_base := op.local_ptr, iov_len := op.len }

/-- The errno values relevant here (`nix::errno::Errno`). -/
inductive Errno
  | EFAULT
  | ESRCH
  | EPERM
deriving DecidableEq

/-- The type `nix::Error` as used by this code (`nix::Error::Sys(errno)`). -/
inductive NixError
  | sys (e : Errno)
deriving DecidableEq

/-- Modelled from the spec: the address-space map entries returned by the
external `memory_maps()` collaborator (`src/target/linux/memory.rs`, not
under `src/`): a mapped region `[base, base + length)` and whether it is
currently readable. -/
structure MemMap where
  base : Nat
  length : Nat
  is_readable : Bool
deriving DecidableEq

/-- The environment supplying results of the external system calls:
the raw return value of the `process_vm_readv` syscall (`-1` = failure)
with the errno observed in that case, the result of the external
`memory_maps()` query, and the `ptrace::read` peek primitive. -/
structure ApplyEnv where
  process_vm_readv : List IoVec → List IoVec → Int
  errnoAfter : List IoVec → List IoVec → Errno
  memory_maps : Except Unit (List MemMap)
  peek : Nat → Option Nat

/-- Embedding of `ReadMemory::read_process_vm`: builds the remote and local iovec
lists, issues a single `process_vm_readv` syscall, and maps the `-1`
return to `nix::Error::last()`. -/
def read_process_vm (env : ApplyEnv) (read_ops : List ReadOp) : Except NixError Int :=
  let remote_iov := read_ops.map ReadOp.as_remote_iovec
  let local_iov := read_ops.map ReadOp.as_local_iovec
  let bytes_read := env.process_vm_readv local_iov remote_iov
  if bytes_read = -1 then
    Except.error (NixError.sys (env.errnoAfter local_iov remote_iov))
  else
    Except.ok bytes_read

/-- Modelled from the spec: `split_protected`
(`src/target/linux/memory.rs`, not under `src/`) partitions the op list
into `(protected, readable)`: "protected (any op whose page falls in an
unreadable range) and readable (the rest)".  An op's page is the one
containing its `remote_base` (ops have already been split so that each
lies within a single page). -/
def split_protected (pageSize : Nat) (protected_maps : List MemMap)
    (ops : List ReadOp) : List ReadOp × List ReadOp :=
  ops.partition (fun op =>
    protected_maps.any (fun map =>
      decide (map.base ≤ pageSize * (op.remote_base / pageSize)
        ∧ pageSize * (op.remote_base / pageSize) < map.base + map.length)))

/-- The retry test on line 126-128 of `readmem.rs`:
`result.is_err() && result.unwrap_err() == nix::Error::Sys(Errno::EFAULT)
 || result.is_ok() && result.unwrap() != read_len as isize`. -/
def retryCondition (result : Except NixError Int) (read_len : Nat) : Bool :=
  match result with
  | Except.error e => decide (e = NixError.sys Errno.EFAULT)
  | Except.ok n => decide (n ≠ (read_len : Int))

/-- The externally observable calls `apply` makes, in order. -/
inductive Call
  | vmRead (ops : List ReadOp)
  | maps
  | ptrace (ops : List ReadOp)
deriving DecidableEq

/-- The sources of the typed errors `apply` can return. -/
inductive ApplyErr
  | mapsErr
  | vm (e : NixError)
  | ptraceErr
deriving DecidableEq

/-- How `apply` ends: a `panic!` (which unwinds without returning a
`Result`), `Ok(())`, or `Err(e)`. -/
inductive ApplyOutcome
  | panicked
  | ok
  | error (e : ApplyErr)
deriving DecidableEq

/-- Embedding of `ReadMemory::apply`: computes the total requested length, panics if
it exceeds `isize::MAX`, issues the batched read once, and on an EFAULT
or a short byte count partitions the ops by page readability, re-issues
the batched read over the readable subset and drives the fallback reader
over the protected subset.  Besides the outcome, the embedding returns
the ordered list of external calls made and the final local memory
(mutated only by the fallback reader; the destination writes done by the
`process_vm_readv` syscall itself happen inside the environment and are
not tracked). -/
def applyRun (env : ApplyEnv) (pageSize : Nat) (read_ops : List ReadOp)
    (mem : LocalMem) : ApplyOutcome × List Call × LocalMem :=
  let read_len := read_ops.foldl (fun sum read_op => sum + read_op.len) 0
  if read_len > isizeMax then (ApplyOutcome.panicked, [], mem)
  else
    let result := read_process_vm env read_ops
    if retryCondition result read_len then
      match env.memory_maps with
      | Except.error _ =>
        (ApplyOutcome.error ApplyErr.mapsErr, [Call.vmRead read_ops, Call.maps], mem)
      | Except.ok maps =>
        let protected_maps := maps.filter (fun map => !map.is_readable)
        let parts := split_protected pageSize protected_maps read_ops
        match read_process_vm env parts.2 with
        | Except.error e2 =>
          (ApplyOutcome.error (ApplyErr.vm e2),
            [Call.vmRead read_ops, Call.maps, Call.vmRead parts.2], mem)
        | Except.ok _ =>
          let r := read_ptrace env.peek parts.1 mem
          if r.1 then
            (ApplyOutcome.ok,
              [Call.vmRead read_ops, Call.maps, Call.vmRead parts.2,
                Call.ptrace parts.1], r.2)
          else
            (ApplyOutcome.error ApplyErr.ptraceErr,
              [Call.vmRead read_ops, Call.maps, Call.vmRead parts.2,
                Call.ptrace parts.1], r.2)
    else (ApplyOutcome.ok, [Call.vmRead read_ops], mem)

/-! ### Claims about `apply` -/

/-- All-zero local memory, used as the initial buffer state. -/
def memZero : LocalMem := fun _ => 0

/-- An environment whose batched read returns 0 bytes. -/
def env0 : ApplyEnv where
  process_vm_readv := fun _ _ => 0
  errnoAfter := fun _ _ => Errno.EFAULT
  memory_maps := Except.ok []
  peek := fun _ => some 0

/-- Claim C1 counterexample: on an oversize batch (total length `2 ^ 63 >
isize::MAX`), `apply` does not return a typed error to the caller as the
claim states — it panics (`panic!("Read size too big")`), producing the
`panicked` outcome instead of an `error` one (though indeed before any
I/O: the call trace is empty). -/
theorem apply_oversize_counterexample :
    (applyRun env0 4096 [{ remote_base := 0, len := 2 ^ 63, local_ptr := 0 }]
        memZero).1 = ApplyOutcome.panicked ∧
    (applyRun env0 4096 [{ remote_base := 0, len := 2 ^ 63, local_ptr := 0 }]
        memZero).2.1 = [] := by decide

/-- Claim C1 (amended): if the total requested length of a batch exceeds
the platform's maximum single-transfer size (`isize::MAX`), then `apply`
fails fast by panicking — not by returning a typed error — before any
I/O is attempted (empty call trace) and with zero mutation of any
destination buffer (the local memory is returned unchanged). -/
theorem apply_oversize_panics (env : ApplyEnv) (pageSize : Nat)
    (read_ops : List ReadOp) (mem : LocalMem)
    (h : sumLens read_ops > isizeMax) :
    applyRun env pageSize read_ops mem = (ApplyOutcome.panicked, [], mem) := by
  unfold applyRun
  simp only [foldl_add_len, Nat.zero_add]
  rw [if_pos h]

/-- Claim C1 witness: the amended claim at a concrete oversize batch. -/
theorem apply_oversize_panics_witness :
    sumLens [{ remote_base := 0, len := 2 ^ 63, local_ptr := 0 }] > isizeMax ∧
    applyRun env0 4096 [{ remote_base := 0, len := 2 ^ 63, local_ptr := 0 }] memZero
      = (ApplyOutcome.panicked, [], memZero) :=
  ⟨by decide,
    apply_oversize_panics env0 4096
      [{ remote_base := 0, len := 2 ^ 63, local_ptr := 0 }] memZero (by decide)⟩

/-- An environment in which the batched read fails with `ESRCH` (the
target process has exited). -/
def envEsrch : ApplyEnv where
  process_vm_readv := fun _ _ => -1
  errnoAfter := fun _ _ => Errno.ESRCH
  memory_maps := Except.ok []
  peek := fun _ => none

/-- Claim C2 is violated by the code: when the first batched read call
fails with an error that is not the permission-class fault `EFAULT` —
here `ESRCH`, the target process has exited — `apply` returns `Ok` (with
no recovery attempted: the trace shows only the one failed call), so the
failure is silently dropped rather than returned to the caller. -/
theorem apply_swallows_esrch :
    read_process_vm envEsrch [{ remote_base := 4096, len := 8, local_ptr := 0 }]
      = Except.error (NixError.sys Errno.ESRCH) ∧
    (applyRun envEsrch 4096 [{ remote_base := 4096, len := 8, local_ptr := 0 }]
        memZero).1 = ApplyOutcome.ok ∧
    (applyRun envEsrch 4096 [{ remote_base := 4096, len := 8, local_ptr := 0 }]
        memZero).2.1
      = [Call.vmRead [{ remote_base := 4096, len := 8, local_ptr := 0 }]] :=
  ⟨rfl, by decide, by decide⟩

/-- Claim C6: if the first batched read call succeeds and reports
`bytes_transferred` equal to the sum of all op lengths, `apply` returns
`Ok` immediately: the address-space-map query is not invoked, no second
batched call is made and the fallback reader is never called (the call
trace consists of the single batched read), and local memory is
untouched. -/
theorem apply_fast_path (env : ApplyEnv) (pageSize : Nat)
    (read_ops : List ReadOp) (mem : LocalMem)
    (hlen : sumLens read_ops ≤ isizeMax)
    (hres : read_process_vm env read_ops = Except.ok (sumLens read_ops : Int)) :
    applyRun env pageSize read_ops mem
      = (ApplyOutcome.ok, [Call.vmRead read_ops], mem) := by
  unfold applyRun
  simp only [foldl_add_len, Nat.zero_add]
  rw [if_neg (by omega), hres]
  simp [retryCondition]

/-- An environment whose batched read returns exactly the 8 requested
bytes. -/
def envFull : ApplyEnv where
  process_vm_readv := fun _ _ => 8
  errnoAfter := fun _ _ => Errno.EFAULT
  memory_maps := Except.ok []
  peek := fun _ => none

/-- Claim C6 witness: a full first-call success on one 8-byte op. -/
theorem apply_fast_path_witness :
    sumLens [{ remote_base := 0, len := 8, local_ptr := 0 }] ≤ isizeMax ∧
    applyRun envFull 4096 [{ remote_base := 0, len := 8, local_ptr := 0 }] memZero
      = (ApplyOutcome.ok,
          [Call.vmRead [{ remote_base := 0, len := 8, local_ptr := 0 }]], memZero) :=
  ⟨by decide,
    apply_fast_path envFull 4096 [{ remote_base := 0, len := 8, local_ptr := 0 }]
      memZero (by decide) rfl⟩

/-- Claim C9: a short-but-successful second batched read is not detected:
whenever the first batched call triggers the retry condition, the second
batched call over the readable subset returns without error (any byte
count, even one smaller than the readable subset's total length is never
inspected), and the fallback reader succeeds over the protected subset,
`apply` returns `Ok`. -/
theorem apply_short_second_read (env : ApplyEnv) (pageSize : Nat)
    (read_ops : List ReadOp) (mem : LocalMem) (maps : List MemMap)
    (hlen : sumLens read_ops ≤ isizeMax)
    (hretry : retryCondition (read_process_vm env read_ops) (sumLens read_ops) = true)
    (hmaps : env.memory_maps = Except.ok maps)
    (hsecond : ∃ n, read_process_vm env
        (split_protected pageSize (maps.filter (fun map => !map.is_readable))
          read_ops).2 = Except.ok n)
    (hptrace : (read_ptrace env.peek
        (split_protected pageSize (maps.filter (fun map => !map.is_readable))
          read_ops).1 mem).1 = true) :
    (applyRun env pageSize read_ops mem).1 = ApplyOutcome.ok := by
  obtain ⟨n, hn⟩ := hsecond
  unfold applyRun
  simp only [foldl_add_len, Nat.zero_add]
  rw [if_neg (by omega), hretry, if_pos rfl]
  simp only [hmaps, hn, hptrace, if_pos]

/-- An environment that faults with `EFAULT` on the first (non-empty)
batched call, reports the single page at `0x1000` unreadable, transfers
0 bytes on the second (empty) batched call, and peeks successfully. -/
def envRecover : ApplyEnv where
  process_vm_readv := fun local_iov _ => if local_iov = [] then 0 else -1
  errnoAfter := fun _ _ => Errno.EFAULT
  memory_maps := Except.ok [{ base := 0x1000, length := 0x1000, is_readable := false }]
  peek := fun _ => some 0

/-- Claim C9 witness: one 8-byte op on the unreadable page at `0x1000`;
the first call faults, the readable subset is empty and its call reports
0 bytes, the fallback succeeds, and `apply` returns `Ok`. -/
theorem apply_short_second_read_witness :
    retryCondition
        (read_process_vm envRecover [{ remote_base := 0x1000, len := 8, local_ptr := 0 }])
        (sumLens [{ remote_base := 0x1000, len := 8, local_ptr := 0 }]) = true ∧
    (applyRun envRecover 4096 [{ remote_base := 0x1000, len := 8, local_ptr := 0 }]
        memZero).1 = ApplyOutcome.ok :=
  ⟨by decide,
    apply_short_second_read envRecover 4096
      [{ remote_base := 0x1000, len := 8, local_ptr := 0 }] memZero
      [{ base := 0x1000, length := 0x1000, is_readable := false }]
      (by decide) (by decide) rfl ⟨0, rfl⟩ (by decide)⟩

end Headcrab
